import Mathlib

/-!
Shallow embedding of the Qt Designer Object Inspector model
(`objectinspectormodel.cpp`): the snapshot entry type `ObjectData` with its
identity comparison (`equals`) and attribute diff (`compare`), the snapshot
builder `createModelRecursion`, and the model class `ObjectInspectorModel`
with `update`, `rebuild`, `updateItemContents`, `clearItems`, `objectAt`,
`data` and `setData`.

Objects of the host object graph are identified by abstract identities
(`Obj := Nat`, a stand-in for the `QObject*` pointer value).  Icons are
identified by their cache key (`Option Nat`, `none` being the null `QIcon`).
The host environment consulted by the code (form window, core, widget
database, meta database, extension manager) is bundled into one record of
introspection functions, `FormWindow`.
-/

/-- Object identity: stand-in for a `QObject*` pointer value. -/
abbrev Obj := Nat

/-- A `QIcon`, identified by nullness and cache key. -/
abbrev IconRef := Option Nat

/-- `Qt::DisplayRole`. -/
def DisplayRole : Nat := 0

/-- `Qt::EditRole`. -/
def EditRole : Nat := 2

/-- Translated string used for separator actions. -/
def separatorStr : String := "separator"

/-- Translated placeholder returned by `data` for empty display strings. -/
def nonameStr : String := "<noname>"

/-- `ModelRecursionContext::designerPrefix`. -/
def qdesignerPrefixStr : String := "QDesigner"

/-- `sameIcon` from `objectinspectormodel.cpp`: two icons are the same when
both are null, or both are non-null with equal cache keys. -/
def sameIcon : IconRef → IconRef → Bool
  | none, none => true
  | none, some _ => false
  | some _, none => false
  | some k1, some k2 => k1 == k2

/-- An item of the widget database (`QDesignerWidgetDataBaseItemInterface`):
the fields read by `ObjectData::initWidget`. -/
structure WidgetDbItem where
  icon : IconRef
  name : String
  isContainer : Bool

/-- The data read from a `QLayoutWidget`'s managed layout (`w->layout()`):
class name, object name, and `LayoutInfo::layoutType`. -/
structure WidgetLayout where
  layoutClassName : String
  layoutObjectName : String
  layoutType : Nat

/-- The host environment of the Object Inspector: the form window together
with the capabilities of its core (widget database, meta database, extension
manager) that the source consults while walking the object graph.  `fuel`
bounds the depth of the (well-formed, hence finite) object graph walk. -/
structure FormWindow where
  /-- `fw->mainContainer()`; `none` models a null main container. -/
  mainContainer : Option Obj := none
  /-- `object->children()`, in child order. -/
  children : Obj → List Obj := fun _ => []
  /-- `object->isWidgetType()`. -/
  isWidgetType : Obj → Bool := fun _ => false
  /-- `fw->isManaged(widget)`. -/
  isManaged : Obj → Bool := fun _ => false
  /-- Presence of a meta database entry: `mdb->item(object) != nullptr`. -/
  mdbItem : Obj → Bool := fun _ => false
  /-- `qobject_cast<QButtonGroup*>(object) != nullptr`. -/
  isButtonGroup : Obj → Bool := fun _ => false
  /-- `qt_extension<QDesignerContainerExtension*>`: when the object has a
  container extension, the pages `widget(0) .. widget(count()-1)`. -/
  containerPages : Obj → Option (List Obj) := fun _ => none
  /-- `widget->actions()`. -/
  actions : Obj → List Obj := fun _ => []
  /-- `action->menu()`; `none` models a null menu. -/
  actionMenu : Obj → Option Obj := fun _ => none
  /-- `qobject_cast<const QAction*>(object) != nullptr`. -/
  isAction : Obj → Bool := fun _ => false
  /-- `act->isSeparator()`. -/
  isSeparator : Obj → Bool := fun _ => false
  /-- `act->icon()`. -/
  actionIcon : Obj → IconRef := fun _ => none
  /-- `object->metaObject()->className()`. -/
  metaClassName : Obj → String := fun _ => ""
  /-- `object->objectName()`. -/
  objectName : Obj → String := fun _ => ""
  /-- `db->item(db->indexOfObject(w, true))`. -/
  dbItem : Obj → Option WidgetDbItem := fun _ => none
  /-- `isQLayoutWidget(object)`: the meta object is exactly
  `QLayoutWidget::staticMetaObject`. -/
  isQLayoutWidget : Obj → Bool := fun _ => false
  /-- `w->layout()` of a `QLayoutWidget`, with the fields read from it. -/
  layoutOf : Obj → Option WidgetLayout := fun _ => none
  /-- `LayoutInfo::managedLayoutType(core, w)`. -/
  managedLayoutType : Obj → Nat := fun _ => 0
  /-- Depth bound for the object graph walk. -/
  fuel : Nat := 0

/-- `ObjectData::Type`: classification of a snapshot entry. -/
inductive ObjType where
  | Object
  | Action
  | SeparatorAction
  | ChildWidget
  | LayoutWidget
  | LayoutableContainer
  | ExtensionContainer
deriving DecidableEq, Repr

/-- A snapshot entry (`ObjectData`): identity (parent reference and object
reference) plus cached display attributes.  Defaults model the header's
member defaults (null parent and object, empty strings, null icon,
`Object` type, `LayoutInfo::NoLayout`). -/
structure ObjectData where
  m_parent : Option Obj := none
  m_object : Obj := 0
  m_className : String := ""
  m_objectName : String := ""
  m_classIcon : IconRef := none
  m_type : ObjType := ObjType.Object
  m_managedLayoutType : Nat := 0
deriving DecidableEq, Repr

/-- The identity pair of an entry: (parent reference, object reference). -/
def ObjectData.idPair (e : ObjectData) : Option Obj × Obj :=
  (e.m_parent, e.m_object)

/-- `ObjectData::initObject`: classification of non-widget objects
(action, separator action, or plain object). -/
def ObjectData.initObject (host : FormWindow) (d : ObjectData) : ObjectData :=
  if host.isAction d.m_object then
    if host.isSeparator d.m_object then
      { d with m_objectName := separatorStr, m_type := ObjType.SeparatorAction,
               m_classIcon := host.actionIcon d.m_object }
    else
      { d with m_type := ObjType.Action, m_classIcon := host.actionIcon d.m_object }
  else
    { d with m_type := ObjType.Object }

/-- `ObjectData::initWidget`: widget database lookup, then classification as
`QLayoutWidget` (kept at the default type in the transient no-layout state),
extension container, layoutable container, or child widget. -/
def ObjectData.initWidget (host : FormWindow) (d : ObjectData) : ObjectData :=
  let w := d.m_object
  let r : ObjectData × Bool :=
    match host.dbItem w with
    | some item => ({ d with m_classIcon := item.icon, m_className := item.name },
                    item.isContainer)
    | none => (d, false)
  let d := r.1
  let isContainer := r.2
  if host.isQLayoutWidget w then
    match host.layoutOf w with
    | some L =>
        { d with m_type := ObjType.LayoutWidget, m_managedLayoutType := L.layoutType,
                 m_className := L.layoutClassName, m_objectName := L.layoutObjectName }
    | none => d
  else if (host.containerPages w).isSome then
    { d with m_type := ObjType.ExtensionContainer }
  else if isContainer then
    { d with m_type := ObjType.LayoutableContainer,
             m_managedLayoutType := host.managedLayoutType w }
  else
    { d with m_type := ObjType.ChildWidget }

/-- The final step of the `ObjectData` constructor on the class name:
`m_className.remove(1, designerPrefix.size() - 1)` when the class name
starts with the `QDesigner` prefix. -/
def stripDesignerClassName (s : String) : String :=
  if s.startsWith qdesignerPrefixStr then
    s.take 1 ++ s.drop qdesignerPrefixStr.length
  else s

/-- The attribute part of the `ObjectData` constructor: everything except the
parent back reference (the attributes depend only on the object itself). -/
def ObjectData.makeAttrs (host : FormWindow) (object : Obj) : ObjectData :=
  let d : ObjectData :=
    { m_object := object, m_className := host.metaClassName object,
      m_objectName := host.objectName object }
  let d :=
    if host.isWidgetType object then ObjectData.initWidget host d
    else ObjectData.initObject host d
  { d with m_className := stripDesignerClassName d.m_className }

/-- The `ObjectData(parent, object, ctx)` constructor. -/
def ObjectData.make (host : FormWindow) (parent : Option Obj) (object : Obj) :
    ObjectData :=
  { ObjectData.makeAttrs host object with m_parent := parent }

/-- `ObjectData::equals`: identity comparison on the
(parent reference, object reference) pair. -/
def ObjectData.equals (lhs rhs : ObjectData) : Bool :=
  lhs.m_parent == rhs.m_parent && lhs.m_object == rhs.m_object

/-- Change mask bit `ClassNameChanged` (header enum, distinct bits). -/
def ClassNameChanged : Nat := 1

/-- Change mask bit `ObjectNameChanged`. -/
def ObjectNameChanged : Nat := 2

/-- Change mask bit `ClassIconChanged`. -/
def ClassIconChanged : Nat := 4

/-- Change mask bit `TypeChanged`. -/
def TypeChanged : Nat := 8

/-- Change mask bit `LayoutTypeChanged`. -/
def LayoutTypeChanged : Nat := 16

/-- `ObjectData::compare`: bitmask of the display attributes that differ. -/
def ObjectData.compare (lhs rhs : ObjectData) : Nat :=
  (if lhs.m_className ≠ rhs.m_className then ClassNameChanged else 0) |||
  (if lhs.m_objectName ≠ rhs.m_objectName then ObjectNameChanged else 0) |||
  (if !sameIcon lhs.m_classIcon rhs.m_classIcon then ClassIconChanged else 0) |||
  (if lhs.m_type ≠ rhs.m_type then TypeChanged else 0) |||
  (if lhs.m_managedLayoutType ≠ rhs.m_managedLayoutType then LayoutTypeChanged else 0)

/-- A snapshot: ordered flat list of entries (`ObjectModel`). -/
abbrev ObjectModel := List ObjectData

/-- `QList::operator==` on `ObjectModel`.  Modelled from the spec: the
element comparison `operator==(const ObjectData&, const ObjectData&)` lives
in the header `objectinspectormodel_p.h`, which is not among the sources;
per the source comment, "ObjectData has an overloaded operator== that
compares the object pointers", i.e. it is `ObjectData::equals`. -/
def ObjectModel.beq : ObjectModel → ObjectModel → Bool
  | [], [] => true
  | a :: restA, b :: restB => a.equals b && ObjectModel.beq restA restB
  | _, _ => false

/-!
### Snapshot builder (`createModelRecursion`)

The C++ recursion terminates because a well-formed host object graph is
finite; the embedding makes this explicit with a depth bound (`fuel`).
`createModelRecursion host fuel` performs the recursion cut off at depth
`fuel`: with fuel `0` nothing is appended, with fuel `n+1` one step of the
source routine runs, recursing at fuel `n`.
-/

/-- One `for` loop of the source recursing into every object of a list with
a fixed parent (`rec` is the recursion at the next depth). -/
def recList (rec : Option Obj → Obj → List ObjectData → List ObjectData)
    (parent : Obj) : List Obj → List ObjectData → List ObjectData
  | [], model => model
  | o :: rest, model => recList rec parent rest (rec (some parent) o model)

/-- The `for (QObject *childObject : object->children())` loop: managed
widget children are recursed into (unless a container extension was found),
and non-widget children with a meta database entry that are button groups
are collected into `buttonGroups`. -/
def processChildren (host : FormWindow)
    (rec : Option Obj → Obj → List ObjectData → List ObjectData)
    (object : Obj) (hasExt : Bool) :
    List Obj → List Obj → List ObjectData → List Obj × List ObjectData
  | [], buttonGroups, model => (buttonGroups, model)
  | c :: rest, buttonGroups, model =>
    if host.isWidgetType c then
      if !hasExt && host.isManaged c then
        processChildren host rec object hasExt rest buttonGroups
          (rec (some object) c model)
      else
        processChildren host rec object hasExt rest buttonGroups model
    else
      if host.mdbItem c then
        if host.isButtonGroup c then
          processChildren host rec object hasExt rest (buttonGroups ++ [c]) model
        else
          processChildren host rec object hasExt rest buttonGroups model
      else
        processChildren host rec object hasExt rest buttonGroups model

/-- The `for (QAction *action : actions)` loop: actions with a meta database
entry are recursed into, an action owning a menu being substituted by the
menu. -/
def processActions (host : FormWindow)
    (rec : Option Obj → Obj → List ObjectData → List ObjectData)
    (object : Obj) : List Obj → List ObjectData → List ObjectData
  | [], model => model
  | a :: rest, model =>
    if host.mdbItem a then
      let childObject :=
        match host.actionMenu a with
        | some menu => menu
        | none => a
      processActions host rec object rest (rec (some object) childObject model)
    else
      processActions host rec object rest model

/-- One step of `createModelRecursion`: create and append the entry, recurse
into extension-container pages (when the entry is an extension container),
walk the children list, recurse into the collected button groups, and
finally recurse into the attached actions of widgets. -/
def snapStep (host : FormWindow)
    (rec : Option Obj → Obj → List ObjectData → List ObjectData)
    (parent : Option Obj) (object : Obj) (model : List ObjectData) :
    List ObjectData :=
  let entry := ObjectData.make host parent object
  let model1 := model ++ [entry]
  let containerExtension : Option (List Obj) :=
    if entry.m_type = ObjType.ExtensionContainer then host.containerPages object
    else none
  let model2 :=
    match containerExtension with
    | some pages => recList rec object pages model1
    | none => model1
  let model3 :=
    if (host.children object).isEmpty then model2
    else
      let r := processChildren host rec object containerExtension.isSome
        (host.children object) [] model2
      recList rec object r.1 r.2
  if host.isWidgetType object then
    processActions host rec object (host.actions object) model3
  else model3

/-- `createModelRecursion(fwi, parent, object, model, ctx)`, cut off at the
given depth. -/
def createModelRecursion (host : FormWindow) :
    Nat → Option Obj → Obj → List ObjectData → List ObjectData
  | 0, _, _, model => model
  | fuel + 1, parent, object, model =>
    snapStep host (createModelRecursion host fuel) parent object model

/-- The container extension consulted for an object, as seen through the
type classification of its entry. -/
def containerPagesOf (host : FormWindow) (object : Obj) : Option (List Obj) :=
  if (ObjectData.makeAttrs host object).m_type = ObjType.ExtensionContainer then
    host.containerPages object
  else none

/-- The objects one step of the builder recurses into, in order:
extension-container pages, then managed widget children (only without a
container extension), then button-group children with a meta database
entry, then attached actions with a meta database entry (an action owning a
menu substituted by the menu). -/
def recursionTargets (host : FormWindow) (object : Obj) : List Obj :=
  (containerPagesOf host object).getD []
  ++ (host.children object).filter
       (fun c => host.isWidgetType c
                 && !(containerPagesOf host object).isSome && host.isManaged c)
  ++ (host.children object).filter
       (fun c => !host.isWidgetType c && host.mdbItem c && host.isButtonGroup c)
  ++ (if host.isWidgetType object then
        ((host.actions object).filter host.mdbItem).map
          (fun a => (host.actionMenu a).getD a)
      else [])

/-- `AnchoredIn objs entries`: every entry's parent reference is the object
of some entry occurring earlier — either in the context list `objs` or
earlier in `entries` itself. -/
def AnchoredIn : List Obj → List ObjectData → Prop
  | _, [] => True
  | objs, e :: rest =>
      (∃ o, o ∈ objs ∧ e.m_parent = some o)
      ∧ AnchoredIn (objs ++ [e.m_object]) rest

/-!
### Presentation tree and `ObjectInspectorModel`

A presentation row models one row of the backing `QStandardItemModel` (its
two items, `ObjectNameColumn` and `ClassNameColumn`, merged into one
record).  `rowId` is the allocation identity of the row: `rebuild` creates
rows with fresh identities, the patch path keeps them.
-/

/-- One row of the presentation tree: the two standard items of a row with
the cell data set by the source (text, tool tip, icons, and the `DataRole`
payload holding the object). -/
structure PresRow where
  rowId : Nat
  parentRef : Option Nat := none
  objectNameText : String := ""
  classNameText : String := ""
  classNameToolTip : String := ""
  objectNameIcon : IconRef := none
  classNameIcon : IconRef := none
  dataObject : Option Obj := none
deriving DecidableEq, Repr

/-- The layout icon table built in the constructor
(`m_icons.layoutIcons[...]`). -/
structure ObjectInspectorIcons where
  layoutIcons : Nat → IconRef

/-- `createModelRow`: a freshly allocated row with default items. -/
def createModelRowFresh (rowId : Nat) (parentRef : Option Nat) : PresRow :=
  { rowId := rowId, parentRef := parentRef }

/-- `ObjectData::setItemsDisplayData`: apply the attribute columns selected
by `mask` to a row (name text, class text and tool tip, and the icons
chosen by the entry type). -/
def setItemsDisplayDataRow (e : ObjectData) (icons : ObjectInspectorIcons)
    (mask : Nat) (r : PresRow) : PresRow :=
  let r :=
    if mask &&& ObjectNameChanged ≠ 0 then { r with objectNameText := e.m_objectName }
    else r
  let r :=
    if mask &&& ClassNameChanged ≠ 0 then
      { r with classNameText := e.m_className, classNameToolTip := e.m_className }
    else r
  if mask &&& (ClassIconChanged ||| TypeChanged ||| LayoutTypeChanged) ≠ 0 then
    match e.m_type with
    | ObjType.LayoutWidget =>
        { r with objectNameIcon := icons.layoutIcons e.m_managedLayoutType,
                 classNameIcon := icons.layoutIcons e.m_managedLayoutType }
    | ObjType.LayoutableContainer =>
        { r with objectNameIcon := icons.layoutIcons e.m_managedLayoutType,
                 classNameIcon := e.m_classIcon }
    | _ =>
        { r with objectNameIcon := none, classNameIcon := e.m_classIcon }
  else r

/-- `ObjectData::setItems`: store the object as `DataRole` data on both
items, then set every display attribute. -/
def setItemsRow (e : ObjectData) (icons : ObjectInspectorIcons) (r : PresRow) :
    PresRow :=
  let r := { r with dataObject := some e.m_object }
  setItemsDisplayDataRow e icons
    (ClassNameChanged ||| ObjectNameChanged ||| ClassIconChanged
     ||| TypeChanged ||| LayoutTypeChanged) r

/-- Result of `ObjectInspectorModel::update`. -/
inductive UpdateResult where
  | NoForm
  | Updated
  | Rebuilt
deriving DecidableEq, Repr

/-- The state of an `ObjectInspectorModel`: the stored snapshot, the stored
form window, the per-object multi map from object identity to row identity
(`m_objectIndexMultiMap`, most recent insertion first), the presentation
rows in creation order, the fresh-row counter, and the icon table. -/
structure ObjectInspectorModel where
  m_model : ObjectModel := []
  m_formWindow : Option FormWindow := none
  m_objectIndexMultiMap : List (Obj × Nat) := []
  rows : List PresRow := []
  nextRowId : Nat := 0
  m_icons : ObjectInspectorIcons := ⟨fun _ => none⟩

/-- `QMultiMap::value(key, QModelIndex())`: the most recently inserted value
for the key, or `none` (the invalid index); a null parent pointer finds
nothing. -/
def mapValue (map : List (Obj × Nat)) : Option Obj → Option Nat
  | none => none
  | some k => (map.find? (fun p => p.1 == k)).map Prod.snd

/-- `QMultiMap::values(key)`: all values for the key, most recently
inserted first. -/
def mapValues (map : List (Obj × Nat)) (o : Obj) : List Nat :=
  (map.filter (fun p => p.1 == o)).map Prod.snd

/-- `ObjectInspectorModel::clearItems`: clear the per-object index, the
stored snapshot, and all presentation rows. -/
def ObjectInspectorModel.clearItems (st : ObjectInspectorModel) :
    ObjectInspectorModel :=
  { st with m_objectIndexMultiMap := [], m_model := [], rows := [] }

/-- The loop of `ObjectInspectorModel::rebuild` over the non-root entries:
look up the parent row via the index, allocate a fresh row under it, set
all its display data, and register it in the index. -/
def rebuildLoop : List ObjectData → ObjectInspectorModel → ObjectInspectorModel
  | [], st => st
  | e :: rest, st =>
    let parentIndex := mapValue st.m_objectIndexMultiMap e.m_parent
    let row := setItemsRow e st.m_icons (createModelRowFresh st.nextRowId parentIndex)
    rebuildLoop rest
      { st with rows := st.rows ++ [row],
                m_objectIndexMultiMap := (e.m_object, st.nextRowId) :: st.m_objectIndexMultiMap,
                nextRowId := st.nextRowId + 1 }

/-- `ObjectInspectorModel::rebuild`: discard the whole presentation tree,
then allocate one row per entry (root first), setting all display data and
re-populating the per-object index. -/
def ObjectInspectorModel.rebuild (st : ObjectInspectorModel)
    (newModel : ObjectModel) : ObjectInspectorModel :=
  let st1 := st.clearItems
  match newModel with
  | [] => st1
  | root :: rest =>
    let rootRow := setItemsRow root st1.m_icons (createModelRowFresh st1.nextRowId none)
    let st2 :=
      { st1 with rows := [rootRow],
                 m_objectIndexMultiMap := [(root.m_object, st1.nextRowId)],
                 nextRowId := st1.nextRowId + 1 }
    rebuildLoop rest st2

/-- A record of one `setItemsDisplayData` call made by the patch path: the
patched object, the change mask applied, and the row identity patched. -/
structure PatchEvent where
  obj : Obj
  mask : Nat
  loc : Nat
deriving DecidableEq, Repr

/-- Apply `setItemsDisplayData` with the given mask to every row whose
identity occurs in `locs`. -/
def applyToRows (icons : ObjectInspectorIcons) (entry : ObjectData) (mask : Nat)
    (locs : List Nat) (rows : List PresRow) : List PresRow :=
  locs.foldl
    (fun rs loc =>
      rs.map (fun r => if r.rowId = loc then setItemsDisplayDataRow entry icons mask r else r))
    rows

/-- The loop of `ObjectInspectorModel::updateItemContents`: walk the old and
new snapshots in lockstep; at every position with a non-zero change mask,
overwrite the old entry and — unless the object was already handled
(`changedObjects` seen set) — patch all of its rows found via the index.
Returns the updated old snapshot, the seen set, the updated rows, and the
list of patch events (one per `setItemsDisplayData` call, in order). -/
def updateItemContentsAux (icons : ObjectInspectorIcons) (map : List (Obj × Nat)) :
    List ObjectData → List ObjectData → List Obj → List PresRow →
    List ObjectData × List Obj × List PresRow × List PatchEvent
  | oldE :: oldRest, newE :: newRest, changedObjects, rows =>
    let changedMask := oldE.compare newE
    if changedMask ≠ 0 then
      let entry := newE
      let o := entry.m_object
      if o ∈ changedObjects then
        let r := updateItemContentsAux icons map oldRest newRest changedObjects rows
        (entry :: r.1, r.2.1, r.2.2.1, r.2.2.2)
      else
        let seen1 := o :: changedObjects
        let locs := mapValues map o
        let rows1 := applyToRows icons entry changedMask locs rows
        let r := updateItemContentsAux icons map oldRest newRest seen1 rows1
        (entry :: r.1, r.2.1, r.2.2.1,
         locs.map (fun loc => PatchEvent.mk o changedMask loc) ++ r.2.2.2)
    else
      let r := updateItemContentsAux icons map oldRest newRest changedObjects rows
      (oldE :: r.1, r.2.1, r.2.2.1, r.2.2.2)
  | oldRest, [], changedObjects, rows => (oldRest, changedObjects, rows, [])
  | [], _ :: _, changedObjects, rows => ([], changedObjects, rows, [])

/-- `ObjectInspectorModel::updateItemContents` on the stored snapshot. -/
def ObjectInspectorModel.updateItemContents (st : ObjectInspectorModel)
    (newModel : ObjectModel) : ObjectInspectorModel :=
  let r := updateItemContentsAux st.m_icons st.m_objectIndexMultiMap
    st.m_model newModel [] st.rows
  { st with m_model := r.1, rows := r.2.2.1 }

/-- `ObjectInspectorModel::update`: root-absent input clears everything and
reports `NoForm`; otherwise a new snapshot is built and either patched in
(structurally identical) or the tree is fully rebuilt. -/
def ObjectInspectorModel.update (st : ObjectInspectorModel)
    (fw : Option FormWindow) : ObjectInspectorModel × UpdateResult :=
  match fw with
  | none => ({ st.clearItems with m_formWindow := none }, UpdateResult.NoForm)
  | some f =>
    match f.mainContainer with
    | none => ({ st.clearItems with m_formWindow := none }, UpdateResult.NoForm)
    | some mainContainer =>
      let st1 := { st with m_formWindow := some f }
      let newModel := createModelRecursion f f.fuel none mainContainer []
      if ObjectModel.beq newModel st1.m_model then
        (st1.updateItemContents newModel, UpdateResult.Updated)
      else
        ({ st1.rebuild newModel with m_model := newModel }, UpdateResult.Rebuilt)

/-- `ObjectInspectorModel::objectAt`: resolve a model index to its row and
read the `DataRole` payload (`objectOfItem`); an invalid index, a missing
row, or a row without payload yields null. -/
def ObjectInspectorModel.objectAt (st : ObjectInspectorModel)
    (index : Option Nat) : Option Obj :=
  match index with
  | none => none
  | some r =>
    match st.rows.get? r with
    | none => none
    | some item => item.dataObject

/-- A `QVariant` as far as the embedded code distinguishes them. -/
inductive QVariant where
  | vstr (s : String)
  | vicon (i : IconRef)
  | vobj (o : Obj)
  | vnull
deriving DecidableEq, Repr

/-- `ObjectInspectorModel::data`: return the base class result `rc`
unchanged, except that an empty string queried with the display role is
replaced by the translated `<noname>` placeholder. -/
def ObjectInspectorModel.data (rc : QVariant) (role : Nat) : QVariant :=
  match rc with
  | QVariant.vstr s =>
      if role == DisplayRole && s.isEmpty then QVariant.vstr nonameStr else rc
  | _ => rc

/-- The product of `createTextPropertyCommand`: a set-property command for
the undoable command history of the form window. -/
structure SetPropertyCommand where
  propertyName : String
  value : String
  target : Obj
deriving DecidableEq, Repr

/-- `ObjectInspectorModel::setData`: a rename through the edit role is
delegated to the form window's command history as a set-property command
(`layoutName` for `QLayoutWidget` nodes, otherwise `objectName`).  The
returned list holds the commands pushed (in order); the state is returned
unchanged — the model mutates nothing itself. -/
def ObjectInspectorModel.setData (st : ObjectInspectorModel)
    (index : Option Nat) (value : String) (role : Nat) :
    ObjectInspectorModel × List SetPropertyCommand × Bool :=
  match st.m_formWindow, role == EditRole with
  | some fw, true =>
    (match st.objectAt index with
     | none => (st, [], false)
     | some object =>
       let nameProperty :=
         if fw.isQLayoutWidget object then "layoutName" else "objectName"
       (st, [{ propertyName := nameProperty, value := value, target := object }], true))
  | _, _ => (st, [], false)

/-!
### Specification-side descriptions of the patch path

`firstChangedObjects` lists, in order of first changed position, the
distinct objects having some position with a non-zero change mask that is
not already in the seen set; `maskOfFirst` is the change mask at the first
such position of an object.  The patch-path theorem states that the
`setItemsDisplayData` calls of `updateItemContents` are exactly one pass
over this list, each object patched once per indexed row.
-/

/-- The distinct changed objects, in order of their first position with a
non-zero change mask, skipping objects of the seen set. -/
def firstChangedObjects : List ObjectData → List ObjectData → List Obj → List Obj
  | oldE :: oldRest, newE :: newRest, seen =>
    if oldE.compare newE ≠ 0 then
      let o := newE.m_object
      if o ∈ seen then firstChangedObjects oldRest newRest seen
      else o :: firstChangedObjects oldRest newRest (o :: seen)
    else firstChangedObjects oldRest newRest seen
  | _, [], _ => []
  | [], _ :: _, _ => []

/-- The change mask at the first position with a non-zero mask whose new
entry references `o` (`0` when there is none). -/
def maskOfFirst : List ObjectData → List ObjectData → Obj → Nat
  | oldE :: oldRest, newE :: newRest, o =>
    if oldE.compare newE ≠ 0 ∧ newE.m_object = o then oldE.compare newE
    else maskOfFirst oldRest newRest o
  | _, [], _ => 0
  | [], _ :: _, _ => 0

/-!
### Concrete fixtures

Small concrete hosts and states used to evaluate the operations on explicit
inputs.
-/

/-- A host with a main container and no further structure. -/
def hostA : FormWindow :=
  { mainContainer := some 0, fuel := 1 }

/-- A host whose root widget `0` has one non-widget child `1` carrying a
meta database entry but not being a button group. -/
def cHost : FormWindow :=
  { mainContainer := some 0,
    children := fun o => if o == 0 then [1] else [],
    isWidgetType := fun o => o == 0,
    mdbItem := fun o => o == 1,
    fuel := 2 }

/-- An inspector state with empty stored snapshot. -/
def stA : ObjectInspectorModel := {}

/-- An inspector state with a stored form window and one presentation row
resolving to object `5`. -/
def stB : ObjectInspectorModel :=
  { m_formWindow := some hostA,
    rows := [{ rowId := 0, dataObject := some 5 }],
    nextRowId := 1 }

/-!
### Helper lemmas
-/

theorem sameIcon_iff (i1 i2 : IconRef) : sameIcon i1 i2 = true ↔ i1 = i2 := by
  cases i1 <;> cases i2 <;> simp [sameIcon]

theorem ObjectData.equals_iff (d1 d2 : ObjectData) :
    d1.equals d2 = true ↔ d1.m_parent = d2.m_parent ∧ d1.m_object = d2.m_object := by
  simp [ObjectData.equals]

theorem ObjectData.compare_eq_zero_iff (d1 d2 : ObjectData) :
    d1.compare d2 = 0 ↔
      d1.m_className = d2.m_className ∧ d1.m_objectName = d2.m_objectName
      ∧ sameIcon d1.m_classIcon d2.m_classIcon = true
      ∧ d1.m_type = d2.m_type ∧ d1.m_managedLayoutType = d2.m_managedLayoutType := by
  by_cases h1 : d1.m_className = d2.m_className <;>
    by_cases h2 : d1.m_objectName = d2.m_objectName <;>
      by_cases h3 : sameIcon d1.m_classIcon d2.m_classIcon = true <;>
        by_cases h4 : d1.m_type = d2.m_type <;>
          by_cases h5 : d1.m_managedLayoutType = d2.m_managedLayoutType <;>
            simp [ObjectData.compare, h1, h2, h3, h4, h5, ClassNameChanged,
                  ObjectNameChanged, ClassIconChanged, TypeChanged, LayoutTypeChanged]

theorem ObjectModel.beq_iff (a b : ObjectModel) :
    ObjectModel.beq a b = true ↔ a.map ObjectData.idPair = b.map ObjectData.idPair := by
  induction a generalizing b with
  | nil => cases b <;> simp [ObjectModel.beq]
  | cons x restA ih =>
    cases b with
    | nil => simp [ObjectModel.beq]
    | cons y restB =>
      simp [ObjectModel.beq, ObjectData.equals_iff, ih, ObjectData.idPair,
            Prod.ext_iff, and_assoc]

/-!
### Claim theorems: entry comparison, data, setData
-/

/-- C8: `ObjectData::equals` holds exactly when parent reference and object
reference coincide (independent of every display attribute), and
`ObjectData::compare` returns the zero mask exactly when all five display
attributes (class label, instance name, icon, type tag, layout-kind tag)
coincide. -/
theorem objectData_identity_vs_attributes (d1 d2 : ObjectData) :
    (d1.equals d2 = true ↔ d1.m_parent = d2.m_parent ∧ d1.m_object = d2.m_object)
    ∧ (d1.compare d2 = 0 ↔
        d1.m_className = d2.m_className ∧ d1.m_objectName = d2.m_objectName
        ∧ sameIcon d1.m_classIcon d2.m_classIcon = true
        ∧ d1.m_type = d2.m_type ∧ d1.m_managedLayoutType = d2.m_managedLayoutType) :=
  ⟨ObjectData.equals_iff d1 d2, ObjectData.compare_eq_zero_iff d1 d2⟩

/-- C9: `ObjectInspectorModel::data` substitutes the `<noname>` placeholder
exactly for an empty string queried with the display role; any other role
(in particular the edit role) or any other value is passed through
unchanged. -/
theorem data_noname_only_for_display_role (rc : QVariant) (role : Nat) :
    ObjectInspectorModel.data rc role =
      if role = DisplayRole ∧ rc = QVariant.vstr "" then QVariant.vstr nonameStr
      else rc := by
  cases rc <;>
    simp only [ObjectInspectorModel.data] <;>
      try simp
  case vstr s =>
    by_cases h : role = DisplayRole <;> by_cases h2 : s = "" <;>
      simp [h, h2, String.isEmpty_iff]

/-- C10: `ObjectInspectorModel::setData` succeeds (returning `true`) exactly
when the role is the edit role, a form window is stored, and the index
resolves to an object; it pushes one command exactly on success and never
mutates the model state itself. -/
theorem setData_guard (st : ObjectInspectorModel) (index : Option Nat)
    (value : String) (role : Nat) :
    ((st.setData index value role).2.2 = true ↔
      role = EditRole ∧ st.m_formWindow.isSome ∧ (st.objectAt index).isSome)
    ∧ (st.setData index value role).2.1.length
        = (if (st.setData index value role).2.2 then 1 else 0)
    ∧ (st.setData index value role).1 = st := by
  rcases hfw : st.m_formWindow with _ | fw <;> by_cases hrole : role = EditRole <;>
    rcases hobj : st.objectAt index with _ | o <;>
      simp [ObjectInspectorModel.setData, hfw, hrole, hobj]

/-- C7: a rename request through the edit role submits one set-property
command to the command history, targeting `layoutName` for `QLayoutWidget`
nodes and `objectName` otherwise, while the model state stays unchanged. -/
theorem setData_rename_targets_property (st : ObjectInspectorModel)
    (index : Option Nat) (value : String) (fw : FormWindow) (o : Obj)
    (hfw : st.m_formWindow = some fw) (hobj : st.objectAt index = some o) :
    st.setData index value EditRole =
      (st, [{ propertyName := if fw.isQLayoutWidget o then "layoutName" else "objectName",
              value := value, target := o }], true) := by
  simp [ObjectInspectorModel.setData, hfw, hobj]

/-- Witness for C7 at a concrete state: renaming the row resolving to
object `5` pushes one `objectName` command. -/
theorem setData_rename_targets_property_witness :
    stB.setData (some 0) "x" EditRole =
      (stB, [{ propertyName := "objectName", value := "x", target := 5 }], true) :=
  setData_rename_targets_property stB (some 0) "x" hostA 5 rfl rfl

/-- C3: a null form window, or a form window without a main container,
clears all rows, the per-object index and the stored snapshot, resets the
stored form window, and reports `NoForm`. -/
theorem update_no_form_clears (st : ObjectInspectorModel)
    (fw : Option FormWindow) (h : fw.bind FormWindow.mainContainer = none) :
    ObjectInspectorModel.update st fw =
      ({ st with m_model := [], m_objectIndexMultiMap := [], rows := [],
                 m_formWindow := none }, UpdateResult.NoForm) := by
  cases fw with
  | none => rfl
  | some f =>
    have hmc : f.mainContainer = none := by simpa using h
    simp [ObjectInspectorModel.update, hmc, ObjectInspectorModel.clearItems]

/-- Witness for C3 at a concrete state: a null form window clears the
stored state and yields `NoForm`. -/
theorem update_no_form_clears_witness :
    ObjectInspectorModel.update stB none =
      ({ stB with m_model := [], m_objectIndexMultiMap := [], rows := [],
                  m_formWindow := none }, UpdateResult.NoForm) :=
  update_no_form_clears stB none rfl

theorem recList_append (rec : Option Obj → Obj → List ObjectData → List ObjectData)
    (parent : Obj) (l1 l2 : List Obj) (m : List ObjectData) :
    recList rec parent (l1 ++ l2) m = recList rec parent l2 (recList rec parent l1 m) := by
  induction l1 generalizing m with
  | nil => simp [recList]
  | cons o rest ih => simp [recList, ih]

theorem processChildren_eq (host : FormWindow)
    (rec : Option Obj → Obj → List ObjectData → List ObjectData)
    (object : Obj) (hasExt : Bool) (l : List Obj) (buttonGroups : List Obj)
    (m : List ObjectData) :
    processChildren host rec object hasExt l buttonGroups m =
      (buttonGroups
        ++ l.filter (fun c => !host.isWidgetType c && host.mdbItem c && host.isButtonGroup c),
       recList rec object
         (l.filter (fun c => host.isWidgetType c && !hasExt && host.isManaged c)) m) := by
  induction l generalizing buttonGroups m with
  | nil => simp [processChildren, recList]
  | cons c rest ih =>
    by_cases hw : host.isWidgetType c
    · by_cases hrec : (!hasExt && host.isManaged c) = true
      · simp [processChildren, hw, hrec, ih, List.filter_cons, recList]
      · simp [processChildren, hw, hrec, ih, List.filter_cons]
    · by_cases hmd : host.mdbItem c
      · by_cases hbg : host.isButtonGroup c
        · simp [processChildren, hw, hmd, hbg, ih, List.filter_cons]
        · simp [processChildren, hw, hmd, hbg, ih, List.filter_cons]
      · simp [processChildren, hw, hmd, ih, List.filter_cons]

theorem processActions_eq (host : FormWindow)
    (rec : Option Obj → Obj → List ObjectData → List ObjectData)
    (object : Obj) (l : List Obj) (m : List ObjectData) :
    processActions host rec object l m =
      recList rec object
        ((l.filter host.mdbItem).map (fun a => (host.actionMenu a).getD a)) m := by
  induction l generalizing m with
  | nil => simp [processActions, recList]
  | cons a rest ih =>
    by_cases hmd : host.mdbItem a
    · cases hmenu : host.actionMenu a <;>
        simp [processActions, hmd, hmenu, ih, List.filter_cons, recList]
    · simp [processActions, hmd, ih, List.filter_cons]

theorem snapStep_eq (host : FormWindow)
    (rec : Option Obj → Obj → List ObjectData → List ObjectData)
    (parent : Option Obj) (object : Obj) (model : List ObjectData) :
    snapStep host rec parent object model =
      recList rec object (recursionTargets host object)
        (model ++ [ObjectData.make host parent object]) := by
  have hty : (ObjectData.make host parent object).m_type
      = (ObjectData.makeAttrs host object).m_type := by simp only [ObjectData.make]
  simp only [snapStep, recursionTargets, hty]
  rw [show (if (ObjectData.makeAttrs host object).m_type = ObjType.ExtensionContainer
            then host.containerPages object else none) = containerPagesOf host object
      from rfl]
  rw [recList_append, recList_append, recList_append]
  by_cases hch : (host.children object).isEmpty
  · have hch2 : host.children object = [] := by simpa [List.isEmpty_iff] using hch
    cases hcp : containerPagesOf host object with
    | none =>
      by_cases hwt : host.isWidgetType object <;>
        simp [hch, hch2, hwt, recList, processActions_eq, Option.getD]
    | some pages =>
      by_cases hwt : host.isWidgetType object <;>
        simp [hch, hch2, hwt, recList, processActions_eq, Option.getD]
  · simp only [hch, Bool.false_eq_true, if_false, if_neg]
    rw [processChildren_eq]
    cases hcp : containerPagesOf host object with
    | none =>
      by_cases hwt : host.isWidgetType object <;>
        simp [hwt, recList, processActions_eq, Option.getD, Option.isSome]
    | some pages =>
      by_cases hwt : host.isWidgetType object <;>
        simp [hwt, recList, processActions_eq, Option.getD, Option.isSome]

/-!
### Claim theorems: snapshot builder structure
-/

/-- C4 (amended): one step of the snapshot builder appends the node's entry
and then recurses, in order, into exactly the `recursionTargets`:
extension-container pages (exactly when the entry is an extension
container), then the managed widget children (none when a container
extension is present — mutual exclusion, spelled out by the second
conjunct), then the button-group children carrying a meta database entry
(grouping objects, after the ordinary children of the same parent), and
last the attached actions with a meta database entry, an action owning a
popup menu substituted by that menu. -/
theorem createModelRecursion_step (host : FormWindow) (fuel : Nat)
    (parent : Option Obj) (object : Obj) (model : List ObjectData) :
    createModelRecursion host (fuel + 1) parent object model =
      recList (createModelRecursion host fuel) object (recursionTargets host object)
        (model ++ [ObjectData.make host parent object])
    ∧ ((containerPagesOf host object).isSome →
        (host.children object).filter
          (fun c => host.isWidgetType c
                    && !(containerPagesOf host object).isSome && host.isManaged c) = []) := by
  constructor
  · exact snapStep_eq host (createModelRecursion host fuel) parent object model
  · intro hext
    simp [hext, List.filter_eq_nil_iff]

/-- C4 counterexample: a non-widget child (object `1`) with a meta database
entry that is not a button group is not recursed into — the snapshot of
`cHost` contains only the root, although `1` is a child of the root with a
metadata entry.  This refutes the claim that all metadata-carrying child
objects are recursed into. -/
theorem createModelRecursion_metadata_child_skipped :
    cHost.mdbItem 1 = true ∧ cHost.isWidgetType 1 = false
    ∧ cHost.isButtonGroup 1 = false ∧ cHost.children 0 = [1]
    ∧ (createModelRecursion cHost 2 none 0 []).map ObjectData.m_object = [0] := by
  refine ⟨rfl, rfl, rfl, rfl, ?_⟩
  decide

theorem ObjectData.make_parent (host : FormWindow) (p : Option Obj) (o : Obj) :
    (ObjectData.make host p o).m_parent = p := rfl

theorem ObjectData.make_object (host : FormWindow) (p : Option Obj) (o : Obj) :
    (ObjectData.make host p o).m_object = (ObjectData.makeAttrs host o).m_object := by
  simp only [ObjectData.make]

theorem ObjectData.initObject_object (host : FormWindow) (d : ObjectData) :
    (ObjectData.initObject host d).m_object = d.m_object := by
  unfold ObjectData.initObject
  split_ifs <;> rfl

theorem ObjectData.initWidget_object (host : FormWindow) (d : ObjectData) :
    (ObjectData.initWidget host d).m_object = d.m_object := by
  unfold ObjectData.initWidget
  cases hdb : host.dbItem d.m_object <;> cases hlay : host.layoutOf d.m_object <;>
    simp only [hdb, hlay] <;> split_ifs <;> rfl

theorem ObjectData.makeAttrs_object (host : FormWindow) (o : Obj) :
    (ObjectData.makeAttrs host o).m_object = o := by
  unfold ObjectData.makeAttrs
  split_ifs <;>
    simp [ObjectData.initWidget_object, ObjectData.initObject_object]

theorem recList_acc (rec : Option Obj → Obj → List ObjectData → List ObjectData)
    (hA : ∀ p o m, rec p o m = m ++ rec p o []) (parent : Obj) (l : List Obj) :
    ∀ (m : List ObjectData), recList rec parent l m = m ++ recList rec parent l [] := by
  induction l with
  | nil => intro m; simp [recList]
  | cons x xs ih =>
    intro m
    simp only [recList]
    rw [hA (some parent) x m, ih (m ++ rec (some parent) x []), ih (rec (some parent) x [])]
    simp

theorem createModelRecursion_acc (host : FormWindow) (fuel : Nat) :
    ∀ (p : Option Obj) (o : Obj) (m : List ObjectData),
    createModelRecursion host fuel p o m = m ++ createModelRecursion host fuel p o [] := by
  induction fuel with
  | zero => intro p o m; simp [createModelRecursion]
  | succ n ih =>
    intro p o m
    simp only [createModelRecursion]
    rw [snapStep_eq, snapStep_eq, List.nil_append,
        recList_acc _ ih o (recursionTargets host o) (m ++ [ObjectData.make host p o]),
        recList_acc _ ih o (recursionTargets host o) [ObjectData.make host p o]]
    simp

theorem anchoredIn_mono (S : List ObjectData) :
    ∀ (objs objs' : List Obj), (∀ x, x ∈ objs → x ∈ objs') →
    AnchoredIn objs S → AnchoredIn objs' S := by
  induction S with
  | nil => intro _ _ _ _; trivial
  | cons e rest ih =>
    intro objs objs' hsub h
    obtain ⟨⟨o, ho, hp⟩, hrest⟩ := h
    refine ⟨⟨o, hsub o ho, hp⟩, ?_⟩
    apply ih _ _ ?_ hrest
    intro x hx
    rcases List.mem_append.1 hx with h1 | h1
    · exact List.mem_append.2 (Or.inl (hsub x h1))
    · exact List.mem_append.2 (Or.inr h1)

theorem anchoredIn_append (S1 : List ObjectData) :
    ∀ (S2 : List ObjectData) (objs : List Obj),
    AnchoredIn objs S1 → AnchoredIn (objs ++ S1.map ObjectData.m_object) S2 →
    AnchoredIn objs (S1 ++ S2) := by
  induction S1 with
  | nil => intro S2 objs _ h2; simpa using h2
  | cons e rest ih =>
    intro S2 objs h1 h2
    obtain ⟨he, hrest⟩ := h1
    refine ⟨he, ?_⟩
    apply ih S2 (objs ++ [e.m_object]) hrest
    have heq : (objs ++ [e.m_object]) ++ rest.map ObjectData.m_object
        = objs ++ (e :: rest).map ObjectData.m_object := by simp
    rw [heq]
    exact h2

theorem recList_anchoredIn (rec : Option Obj → Obj → List ObjectData → List ObjectData)
    (hG : ∀ p o objs, p ∈ objs → AnchoredIn objs (rec (some p) o []))
    (hA : ∀ p o m, rec p o m = m ++ rec p o []) (l : List Obj) :
    ∀ (parent : Obj) (objs : List Obj) (acc : List ObjectData),
    AnchoredIn objs acc → parent ∈ objs ++ acc.map ObjectData.m_object →
    AnchoredIn objs (recList rec parent l acc) := by
  induction l with
  | nil => intro parent objs acc hacc _; simpa [recList] using hacc
  | cons x xs ih =>
    intro parent objs acc hacc hmem
    simp only [recList]
    rw [hA (some parent) x acc]
    apply ih parent objs _ ?_ ?_
    · exact anchoredIn_append acc _ objs hacc (hG parent x _ hmem)
    · rcases List.mem_append.1 hmem with h1 | h1
      · exact List.mem_append.2 (Or.inl h1)
      · refine List.mem_append.2 (Or.inr ?_)
        rw [List.map_append]
        exact List.mem_append.2 (Or.inl h1)

theorem createModelRecursion_anchored (host : FormWindow) (fuel : Nat) :
    ∀ (p : Obj) (o : Obj) (objs : List Obj), p ∈ objs →
    AnchoredIn objs (createModelRecursion host fuel (some p) o []) := by
  induction fuel with
  | zero => intro p o objs _; simp [createModelRecursion, AnchoredIn]
  | succ n ih =>
    intro p o objs hp
    simp only [createModelRecursion]
    rw [snapStep_eq, List.nil_append]
    apply recList_anchoredIn (createModelRecursion host n) (fun p1 o1 objs1 hp1 => ih p1 o1 objs1 hp1)
      (fun p1 o1 m1 => createModelRecursion_acc host n p1 o1 m1)
      (recursionTargets host o) o objs [ObjectData.make host (some p) o] ?_ ?_
    · exact ⟨⟨p, hp, ObjectData.make_parent host (some p) o⟩, trivial⟩
    · refine List.mem_append.2 (Or.inr ?_)
      simp [ObjectData.make_object, ObjectData.makeAttrs_object]

/-- C6: every snapshot produced by the builder starts with the root entry,
whose parent reference is absent, and every later entry's parent is the
object of some earlier entry of the same snapshot (`AnchoredIn`). -/
theorem createModelRecursion_parent_before (host : FormWindow) (fuel : Nat) (mc : Obj) :
    ∃ rest,
      createModelRecursion host (fuel + 1) none mc [] = ObjectData.make host none mc :: rest
      ∧ (ObjectData.make host none mc).m_parent = none
      ∧ AnchoredIn [(ObjectData.make host none mc).m_object] rest := by
  refine ⟨recList (createModelRecursion host fuel) mc (recursionTargets host mc) [],
          ?_, ObjectData.make_parent host none mc, ?_⟩
  · simp only [createModelRecursion]
    rw [snapStep_eq, List.nil_append,
        recList_acc _ (fun p1 o1 m1 => createModelRecursion_acc host fuel p1 o1 m1) mc
          (recursionTargets host mc) [ObjectData.make host none mc]]
    simp
  · apply recList_anchoredIn (createModelRecursion host fuel)
      (fun p1 o1 objs1 hp1 => createModelRecursion_anchored host fuel p1 o1 objs1 hp1)
      (fun p1 o1 m1 => createModelRecursion_acc host fuel p1 o1 m1)
      (recursionTargets host mc) mc _ [] trivial ?_
    simp [ObjectData.make_object, ObjectData.makeAttrs_object]

theorem setItemsDisplayDataRow_preserved (e : ObjectData) (icons : ObjectInspectorIcons)
    (mask : Nat) (r : PresRow) :
    (setItemsDisplayDataRow e icons mask r).rowId = r.rowId
    ∧ (setItemsDisplayDataRow e icons mask r).parentRef = r.parentRef
    ∧ (setItemsDisplayDataRow e icons mask r).dataObject = r.dataObject := by
  unfold setItemsDisplayDataRow
  split_ifs <;> cases htype : e.m_type <;> exact ⟨rfl, rfl, rfl⟩

theorem setItemsRow_facts (e : ObjectData) (icons : ObjectInspectorIcons) (r : PresRow) :
    (setItemsRow e icons r).rowId = r.rowId
    ∧ (setItemsRow e icons r).parentRef = r.parentRef
    ∧ (setItemsRow e icons r).dataObject = some e.m_object := by
  unfold setItemsRow
  have h := setItemsDisplayDataRow_preserved e icons
    (ClassNameChanged ||| ObjectNameChanged ||| ClassIconChanged
     ||| TypeChanged ||| LayoutTypeChanged)
    { r with dataObject := some e.m_object }
  simpa using h

theorem range_shift (s n : Nat) :
    (List.range (n + 1)).map (fun i => s + i)
      = s :: (List.range n).map (fun i => s + 1 + i) := by
  rw [List.range_succ_eq_map]
  simp only [List.map_cons, List.map_map, Nat.add_zero]
  congr 1
  congr 1
  funext i
  simp only [Function.comp_apply]
  omega

theorem rebuildLoop_spec (rest : List ObjectData) :
    ∀ (st : ObjectInspectorModel),
    (rebuildLoop rest st).rows.map PresRow.rowId
        = st.rows.map PresRow.rowId ++ (List.range rest.length).map (fun i => st.nextRowId + i)
    ∧ (rebuildLoop rest st).rows.map PresRow.dataObject
        = st.rows.map PresRow.dataObject ++ rest.map (fun e => some e.m_object)
    ∧ (rebuildLoop rest st).m_objectIndexMultiMap
        = ((rest.zip ((List.range rest.length).map (fun i => st.nextRowId + i))).map
            (fun q => (q.1.m_object, q.2))).reverse ++ st.m_objectIndexMultiMap
    ∧ (rebuildLoop rest st).nextRowId = st.nextRowId + rest.length := by
  induction rest with
  | nil => intro st; simp [rebuildLoop]
  | cons e tail ih =>
    intro st
    simp only [rebuildLoop]
    obtain ⟨h1, h2, h3, h4⟩ := ih
      { st with
        rows := st.rows ++ [setItemsRow e st.m_icons
          (createModelRowFresh st.nextRowId (mapValue st.m_objectIndexMultiMap e.m_parent))],
        m_objectIndexMultiMap := (e.m_object, st.nextRowId) :: st.m_objectIndexMultiMap,
        nextRowId := st.nextRowId + 1 }
    refine ⟨?_, ?_, ?_, ?_⟩
    · rw [h1]
      simp only [List.length_cons, range_shift, List.map_append, List.map_cons, List.map_nil]
      rw [(setItemsRow_facts e st.m_icons _).1]
      simp [createModelRowFresh]
    · rw [h2]
      simp only [List.length_cons, List.map_append, List.map_cons, List.map_nil]
      rw [(setItemsRow_facts e st.m_icons _).2.2]
      simp
    · rw [h3]
      simp only [List.length_cons, range_shift, List.zip_cons_cons, List.map_cons,
                 List.reverse_cons]
      simp [List.append_assoc]
    · rw [h4]
      simp [List.length_cons]
      omega

/-- Shared characterization of `rebuild`: fresh row identities in snapshot
order, one row per entry carrying its object, and the per-object index
holding exactly one location per entry keyed by the entry's object. -/
theorem rebuild_spec (st : ObjectInspectorModel) (N : ObjectModel) :
    (st.rebuild N).rows.map PresRow.rowId
        = (List.range N.length).map (fun i => st.nextRowId + i)
    ∧ (st.rebuild N).rows.map PresRow.dataObject = N.map (fun e => some e.m_object)
    ∧ (st.rebuild N).m_objectIndexMultiMap
        = ((N.zip ((List.range N.length).map (fun i => st.nextRowId + i))).map
            (fun q => (q.1.m_object, q.2))).reverse := by
  cases N with
  | nil => simp [ObjectInspectorModel.rebuild, ObjectInspectorModel.clearItems]
  | cons root rest =>
    simp only [ObjectInspectorModel.rebuild]
    obtain ⟨h1, h2, h3, h4⟩ := rebuildLoop_spec rest
      { st.clearItems with
        rows := [setItemsRow root st.clearItems.m_icons
          (createModelRowFresh st.clearItems.nextRowId none)],
        m_objectIndexMultiMap := [(root.m_object, st.clearItems.nextRowId)],
        nextRowId := st.clearItems.nextRowId + 1 }
    refine ⟨?_, ?_, ?_⟩
    · rw [h1]
      simp only [List.length_cons, range_shift, ObjectInspectorModel.clearItems,
                 List.map_cons, List.map_nil]
      rw [(setItemsRow_facts root _ _).1]
      simp [createModelRowFresh]
    · rw [h2]
      simp only [ObjectInspectorModel.clearItems, List.map_cons, List.map_nil]
      rw [(setItemsRow_facts root _ _).2.2]
      simp
    · rw [h3]
      simp only [List.length_cons, range_shift, ObjectInspectorModel.clearItems,
                 List.zip_cons_cons, List.map_cons, List.reverse_cons]

/-!
### Claim theorems: rebuild and update
-/

/-- C5: after a rebuild from snapshot `N`, the rows are freshly allocated
one per entry of `N` in `N`'s order (consecutive new row identities, each
row carrying its entry's object), and the per-object index is exactly
rebuilt: one location per entry of `N` keyed by the entry's object, with no
key from any earlier snapshot remaining. -/
theorem rebuild_index_exactly_rebuilt (st : ObjectInspectorModel) (N : ObjectModel) :
    (st.rebuild N).rows.map PresRow.rowId
        = (List.range N.length).map (fun i => st.nextRowId + i)
    ∧ (st.rebuild N).rows.map PresRow.dataObject = N.map (fun e => some e.m_object)
    ∧ (st.rebuild N).m_objectIndexMultiMap
        = ((N.zip ((List.range N.length).map (fun i => st.nextRowId + i))).map
            (fun q => (q.1.m_object, q.2))).reverse
    ∧ (st.rebuild N).m_objectIndexMultiMap.map Prod.fst
        = (N.map ObjectData.m_object).reverse := by
  obtain ⟨h1, h2, h3⟩ := rebuild_spec st N
  refine ⟨h1, h2, h3, ?_⟩
  rw [h3, List.map_reverse, List.map_map]
  congr 1
  rw [show (Prod.fst ∘ fun q : ObjectData × Nat => (q.1.m_object, q.2))
        = (ObjectData.m_object ∘ Prod.fst) from rfl]
  rw [← List.map_map]
  congr 1
  apply List.map_fst_zip
  simp

theorem applyToRows_rowIds (icons : ObjectInspectorIcons) (entry : ObjectData)
    (mask : Nat) (locs : List Nat) :
    ∀ (rows : List PresRow),
    (applyToRows icons entry mask locs rows).map PresRow.rowId = rows.map PresRow.rowId := by
  induction locs with
  | nil => intro rows; simp [applyToRows]
  | cons loc rest ih =>
    intro rows
    simp only [applyToRows, List.foldl_cons]
    have step := ih (rows.map
      (fun r => if r.rowId = loc then setItemsDisplayDataRow entry icons mask r else r))
    simp only [applyToRows] at step
    rw [step, List.map_map]
    congr 1
    funext r
    by_cases hr : r.rowId = loc <;>
      simp [hr, (setItemsDisplayDataRow_preserved entry icons mask r).1]

theorem updateItemContentsAux_rowIds (icons : ObjectInspectorIcons)
    (map : List (Obj × Nat)) (old : List ObjectData) :
    ∀ (new : List ObjectData) (seen : List Obj) (rows : List PresRow),
    (updateItemContentsAux icons map old new seen rows).2.2.1.map PresRow.rowId
      = rows.map PresRow.rowId := by
  induction old with
  | nil => intro new seen rows; cases new <;> simp [updateItemContentsAux]
  | cons oldE oldRest ih =>
    intro new seen rows
    cases new with
    | nil => simp [updateItemContentsAux]
    | cons newE newRest =>
      simp only [updateItemContentsAux]
      by_cases hmask : oldE.compare newE ≠ 0
      · by_cases hseen : newE.m_object ∈ seen
        · simp [hmask, hseen, ih]
        · simp [hmask, hseen, ih, applyToRows_rowIds]
      · simp [hmask, ih]

theorem updateItemContents_rowIds (st : ObjectInspectorModel) (N : ObjectModel) :
    (st.updateItemContents N).rows.map PresRow.rowId = st.rows.map PresRow.rowId := by
  unfold ObjectInspectorModel.updateItemContents
  exact updateItemContentsAux_rowIds st.m_icons st.m_objectIndexMultiMap st.m_model N [] st.rows

/-- C1: with a main container present, `update` takes the patch path
(`updateItemContents` in place, existing row identities kept, result
`Updated`) exactly when the new snapshot equals the stored one as a
sequence of (parent, object) identity pairs; otherwise it rebuilds the
whole presentation tree (one fresh row per entry of the new snapshot, in
order), stores the new snapshot, and returns `Rebuilt`. -/
theorem update_patch_iff_structural (st : ObjectInspectorModel) (f : FormWindow)
    (mc : Obj) (h : f.mainContainer = some mc) :
    ((ObjectInspectorModel.update st (some f)).2 = UpdateResult.Updated
      ↔ (createModelRecursion f f.fuel none mc []).map ObjectData.idPair
          = st.m_model.map ObjectData.idPair)
    ∧ ((createModelRecursion f f.fuel none mc []).map ObjectData.idPair
          = st.m_model.map ObjectData.idPair →
        ObjectInspectorModel.update st (some f)
          = (ObjectInspectorModel.updateItemContents { st with m_formWindow := some f }
               (createModelRecursion f f.fuel none mc []), UpdateResult.Updated)
        ∧ (ObjectInspectorModel.update st (some f)).1.rows.map PresRow.rowId
            = st.rows.map PresRow.rowId)
    ∧ ((createModelRecursion f f.fuel none mc []).map ObjectData.idPair
          ≠ st.m_model.map ObjectData.idPair →
        ObjectInspectorModel.update st (some f)
          = ({ ObjectInspectorModel.rebuild { st with m_formWindow := some f }
                 (createModelRecursion f f.fuel none mc [])
               with m_model := createModelRecursion f f.fuel none mc [] },
             UpdateResult.Rebuilt)
        ∧ (ObjectInspectorModel.update st (some f)).1.rows.map PresRow.dataObject
            = (createModelRecursion f f.fuel none mc []).map (fun e => some e.m_object)) := by
  by_cases hbeq : ObjectModel.beq (createModelRecursion f f.fuel none mc []) st.m_model = true
  · have hiff := (ObjectModel.beq_iff (createModelRecursion f f.fuel none mc []) st.m_model).1 hbeq
    have hmup : ObjectInspectorModel.update st (some f)
        = (ObjectInspectorModel.updateItemContents { st with m_formWindow := some f }
             (createModelRecursion f f.fuel none mc []), UpdateResult.Updated) := by
      simp [ObjectInspectorModel.update, h, hbeq]
    refine ⟨?_, ?_, ?_⟩
    · simp [hmup, hiff]
    · intro _
      refine ⟨hmup, ?_⟩
      rw [hmup]
      exact updateItemContents_rowIds { st with m_formWindow := some f }
        (createModelRecursion f f.fuel none mc [])
    · intro hne
      exact absurd hiff hne
  · have hne : ¬ (createModelRecursion f f.fuel none mc []).map ObjectData.idPair
        = st.m_model.map ObjectData.idPair := fun hc =>
      hbeq ((ObjectModel.beq_iff (createModelRecursion f f.fuel none mc []) st.m_model).2 hc)
    have hbeq2 : ObjectModel.beq (createModelRecursion f f.fuel none mc []) st.m_model = false := by
      simpa using hbeq
    have hmup : ObjectInspectorModel.update st (some f)
        = ({ ObjectInspectorModel.rebuild { st with m_formWindow := some f }
               (createModelRecursion f f.fuel none mc [])
             with m_model := createModelRecursion f f.fuel none mc [] },
           UpdateResult.Rebuilt) := by
      simp [ObjectInspectorModel.update, h, hbeq2]
    refine ⟨?_, ?_, ?_⟩
    · rw [hmup]
      simp [hne]
    · intro hc
      exact absurd hc hne
    · intro _
      refine ⟨hmup, ?_⟩
      rw [hmup]
      exact (rebuild_spec { st with m_formWindow := some f }
        (createModelRecursion f f.fuel none mc [])).2.1

/-- Witness for C1 at a concrete input: from the empty stored snapshot, the
one-entry snapshot of `hostA` is a structural change, so `update`
rebuilds. -/
theorem update_patch_iff_structural_witness :
    (ObjectInspectorModel.update stA (some hostA)).2 = UpdateResult.Rebuilt := by
  have h := update_patch_iff_structural stA hostA 0 rfl
  have h3 := (h.2.2 (by decide)).1
  exact congrArg Prod.snd h3

theorem listBind_congr_mem {α β : Type} (l : List α) (f g : α → List β)
    (h : ∀ a, a ∈ l → f a = g a) : l.flatMap f = l.flatMap g := by
  induction l with
  | nil => rfl
  | cons x xs ih =>
    rw [List.flatMap_cons, List.flatMap_cons, h x (List.mem_cons_self x xs)]
    rw [ih (fun a ha => h a (List.mem_cons_of_mem x ha))]

theorem mem_firstChangedObjects (old : List ObjectData) :
    ∀ (new : List ObjectData) (seen : List Obj) (o : Obj),
    o ∈ firstChangedObjects old new seen ↔
      o ∉ seen ∧ ∃ p, p ∈ old.zip new ∧ p.1.compare p.2 ≠ 0 ∧ p.2.m_object = o := by
  induction old with
  | nil => intro new seen o; cases new <;> simp [firstChangedObjects]
  | cons oldE oldRest ih =>
    intro new seen o
    cases new with
    | nil => simp [firstChangedObjects]
    | cons newE newRest =>
      simp only [firstChangedObjects, List.zip_cons_cons]
      by_cases hmask : oldE.compare newE ≠ 0
      · by_cases hseen : newE.m_object ∈ seen
        · rw [if_pos hmask, if_pos hseen, ih]
          constructor
          · rintro ⟨hno, p, hp, hc, hobj⟩
            exact ⟨hno, p, List.mem_cons_of_mem _ hp, hc, hobj⟩
          · rintro ⟨hno, p, hp, hc, hobj⟩
            rcases List.mem_cons.1 hp with heq | hp2
            · exfalso
              apply hno
              rw [heq] at hobj
              simpa [← hobj] using hseen
            · exact ⟨hno, p, hp2, hc, hobj⟩
        · rw [if_pos hmask, if_neg hseen]
          simp only [List.mem_cons]
          constructor
          · rintro (rfl | hin)
            · exact ⟨hseen, (oldE, newE), Or.inl rfl, hmask, rfl⟩
            · obtain ⟨hno, p, hp, hc, hobj⟩ := (ih newRest (newE.m_object :: seen) o).1 hin
              refine ⟨fun hs => hno (List.mem_cons_of_mem _ hs),
                      p, Or.inr hp, hc, hobj⟩
          · rintro ⟨hno, p, hp, hc, hobj⟩
            rcases hp with heq | hp2
            · left
              rw [heq] at hobj
              exact hobj.symm
            · by_cases ho : o = newE.m_object
              · left; exact ho
              · right
                refine (ih newRest (newE.m_object :: seen) o).2 ⟨?_, p, hp2, hc, hobj⟩
                simp [List.mem_cons, ho, hno]
      · rw [if_neg hmask, ih]
        constructor
        · rintro ⟨hno, p, hp, hc, hobj⟩
          exact ⟨hno, p, List.mem_cons_of_mem _ hp, hc, hobj⟩
        · rintro ⟨hno, p, hp, hc, hobj⟩
          rcases List.mem_cons.1 hp with heq | hp2
          · exfalso
            apply hmask
            rw [heq] at hc
            exact hc
          · exact ⟨hno, p, hp2, hc, hobj⟩

theorem firstChangedObjects_not_seen (old new : List ObjectData) (seen : List Obj)
    (o : Obj) (h : o ∈ firstChangedObjects old new seen) : o ∉ seen :=
  ((mem_firstChangedObjects old new seen o).1 h).1

theorem firstChangedObjects_nodup (old : List ObjectData) :
    ∀ (new : List ObjectData) (seen : List Obj),
    (firstChangedObjects old new seen).Nodup := by
  induction old with
  | nil => intro new seen; cases new <;> simp [firstChangedObjects]
  | cons oldE oldRest ih =>
    intro new seen
    cases new with
    | nil => simp [firstChangedObjects]
    | cons newE newRest =>
      simp only [firstChangedObjects]
      by_cases hmask : oldE.compare newE ≠ 0
      · by_cases hseen : newE.m_object ∈ seen
        · rw [if_pos hmask, if_pos hseen]
          exact ih newRest seen
        · rw [if_pos hmask, if_neg hseen]
          refine List.nodup_cons.2 ⟨?_, ih newRest (newE.m_object :: seen)⟩
          intro hin
          exact firstChangedObjects_not_seen _ _ _ _ hin (List.mem_cons_self _ _)
      · rw [if_neg hmask]
        exact ih newRest seen

theorem updateItemContentsAux_events (icons : ObjectInspectorIcons)
    (map : List (Obj × Nat)) (old : List ObjectData) :
    ∀ (new : List ObjectData) (seen : List Obj) (rows : List PresRow),
    (updateItemContentsAux icons map old new seen rows).2.2.2
      = (firstChangedObjects old new seen).flatMap
          (fun o => (mapValues map o).map
            (fun loc => PatchEvent.mk o (maskOfFirst old new o) loc)) := by
  induction old with
  | nil => intro new seen rows; cases new <;> simp [updateItemContentsAux, firstChangedObjects]
  | cons oldE oldRest ih =>
    intro new seen rows
    cases new with
    | nil => simp [updateItemContentsAux, firstChangedObjects]
    | cons newE newRest =>
      by_cases hmask : oldE.compare newE ≠ 0
      · by_cases hseen : newE.m_object ∈ seen
        · simp only [updateItemContentsAux, firstChangedObjects, if_pos hmask, if_pos hseen]
          rw [ih newRest seen rows]
          apply listBind_congr_mem
          intro o ho
          have hno : o ∉ seen := firstChangedObjects_not_seen _ _ _ _ ho
          have hne : ¬ newE.m_object = o := fun hc => hno (hc ▸ hseen)
          simp [maskOfFirst, hne]
        · simp only [updateItemContentsAux, firstChangedObjects, if_pos hmask, if_neg hseen]
          rw [ih newRest (newE.m_object :: seen) _]
          rw [List.flatMap_cons]
          congr 1
          · congr 1
            funext loc
            simp [maskOfFirst, hmask]
          · apply listBind_congr_mem
            intro o ho
            have hno : o ∉ newE.m_object :: seen :=
              firstChangedObjects_not_seen _ _ _ _ ho
            have hne : ¬ newE.m_object = o := fun hc => hno (hc ▸ List.mem_cons_self _ _)
            simp [maskOfFirst, hne]
      · simp only [updateItemContentsAux, firstChangedObjects, if_neg hmask]
        rw [ih newRest seen rows]
        apply listBind_congr_mem
        intro o ho
        simp [maskOfFirst, hmask]

/-- C2: the patch events of `updateItemContents` (one per
`setItemsDisplayData` call) are exactly one batch per distinct changed
object, in order of first changed position: each such object is patched on
every presentation row the index holds for it, once per row, with the one
change mask of its first changed position — never once per snapshot
occurrence (the seen set makes the changed-object list duplicate-free).
An object enters the list exactly when some position pairs it with a
non-zero change mask. -/
theorem updateItemContents_once_per_changed_object
    (icons : ObjectInspectorIcons) (map : List (Obj × Nat))
    (old new : List ObjectData) (rows : List PresRow) :
    (updateItemContentsAux icons map old new [] rows).2.2.2
      = (firstChangedObjects old new []).flatMap
          (fun o => (mapValues map o).map
            (fun loc => PatchEvent.mk o (maskOfFirst old new o) loc))
    ∧ (firstChangedObjects old new []).Nodup
    ∧ (∀ o : Obj, o ∈ firstChangedObjects old new [] ↔
        ∃ p, p ∈ old.zip new ∧ p.1.compare p.2 ≠ 0 ∧ p.2.m_object = o) :=
  ⟨updateItemContentsAux_events icons map old new [] rows,
   firstChangedObjects_nodup old new [],
   fun o => by
     rw [mem_firstChangedObjects]
     simp⟩
